import Mathlib

/-!
Verification of the orbit-propagation JNI wrapper (`src/orbit_jni.cpp`,
`Java_com_orbitYu_orbit_OrbitPropagator_propagateFromTle`).

The wrapper is ~120 lines of glue around the Vallado SGP4 library
(`twoline2rv`, `sgp4`, `teme2ecef`, `ijk2ll`), whose sources are not part of
this repository.  We embed the wrapper's control flow and arithmetic exactly,
over exact rationals in place of C doubles, and keep the library calls
abstract: a `Sgp4Core` record bundles the external functions, modelled from
the spec where their behaviour matters.  All theorems about the wrapper are
proved for an arbitrary `Sgp4Core`.
-/

/-- A 3-vector of (exact) reals, standing for `double[3]` in the C code. -/
structure Vec3 where
  x : ℚ
  y : ℚ
  z : ℚ
deriving DecidableEq, Repr

/-- Geodetic output of `ijk2ll`: `latlongh[3] = [lat(rad), lon(rad), alt(km)]`. -/
structure Geodetic where
  lat : ℚ
  lon : ℚ
  alt : ℚ
deriving DecidableEq, Repr

/-- The fields of the Vallado `elsetrec` record that the wrapper reads
directly: the parse status `error` (checked at line 50) and the epoch Julian
date `jdsatepoch` (read at line 92).  The many remaining mean-element fields
are only ever passed through to the external SGP4 routines, so they are
abstracted into a single opaque payload `elems`. -/
structure Elsetrec where
  error : ℤ
  jdsatepoch : ℚ
  elems : ℕ
deriving DecidableEq, Repr

/-- The external SGP4 library surface used by the wrapper.  The library code
is not in this repository, so each field is modelled from the spec. -/
structure Sgp4Core where
  /-- Modelled from the spec: `twoline2rv` (TleParser, §4.1) decodes the two
  TLE lines into an `elsetrec`; on invalid input it leaves
  `satrec.error ≠ 0`, which the wrapper checks. -/
  twoline2rv : String → String → Elsetrec
  /-- Modelled from the spec: `sgp4` (OrbitPropagator, §4.2) is a pure
  function of the fixed parsed record and the elapsed time in minutes
  (PropagationState is "mutated only during its one-time initialization …
  never thereafter", §3); `none` models a propagation failure (the C call
  returning false). -/
  sgp4 : Elsetrec → ℚ → Option (Vec3 × Vec3)
  /-- Modelled from the spec: `teme2ecef` (FrameTransformer, §4.3) rotates an
  inertial state to the Earth-fixed frame at the given Julian date; a pure
  total function with no failure modes. -/
  teme2ecef : Vec3 × Vec3 → ℚ → Vec3 × Vec3
  /-- Modelled from the spec: `ijk2ll` (GeodeticConverter, §4.4) converts an
  Earth-fixed position to geodetic latitude/longitude/altitude; total, never
  signals an error. -/
  ijk2ll : Vec3 → Geodetic
  /-- Modelled from the spec: the constant `pi` provided by the SGP4 headers,
  from which the wrapper computes `rad2deg = 180.0 / pi` (line 68). -/
  pi : ℚ
  /-- Modelled from the spec: success of `NewDoubleArray` for a given element
  count (`AllocationError`: "output buffer could not be constructed", §7). -/
  alloc : ℕ → Bool

/-- The error surface of the wrapper, one constructor per exception class it
throws: `IllegalArgumentException` with its message (null lines, line 39, and
invalid TLE format, line 53), `RuntimeException` carrying the failing step
index (line 78), and `OutOfMemoryError` (line 113). -/
inductive JniError where
  | invalidInput : String → JniError
  | propagationFailed : ℕ → JniError
  | allocationFailed : JniError
deriving DecidableEq, Repr

/-- Line 72: `double tsince = i * stepMinutes;` — minutes since TLE epoch for
sample `i`. -/
def tsinceAt (stepMinutes : ℚ) (i : ℕ) : ℚ :=
  (i : ℚ) * stepMinutes

/-- Lines 58–60: `totalMinutes = durationHours * 60.0`;
`steps = (int)floor(totalMinutes / stepMinutes)`; `if (steps < 0) steps = 0'. -/
def stepsOf (durationHours stepMinutes : ℚ) : ℤ :=
  let totalMinutes := durationHours * 60
  let steps := ⌊totalMinutes / stepMinutes⌋
  if steps < 0 then 0 else steps

/-- Line 61: `int totalPoints = steps + 1;` (as a count, after the clamp the
value is nonnegative). -/
def totalPointsOf (durationHours stepMinutes : ℚ) : ℕ :=
  (stepsOf durationHours stepMinutes).toNat + 1

/-- Lines 83–102: the nine values pushed onto `trajectory` for one loop
iteration, in push order: the TEME position and velocity components, then
latitude and longitude scaled by `rad2deg = 180 / pi`, then altitude.
`jdut1 = satrec.jdsatepoch + tsince / 1440.0` (line 92) is the Julian date
passed to `teme2ecef`. -/
def sampleFields (core : Sgp4Core) (satrec : Elsetrec) (stepMinutes : ℚ)
    (i : ℕ) (rv : Vec3 × Vec3) : List ℚ :=
  let rad2deg : ℚ := 180 / core.pi
  let tsince := tsinceAt stepMinutes i
  let jdut1 := satrec.jdsatepoch + tsince / 1440
  let recef := (core.teme2ecef rv jdut1).1
  let llh := core.ijk2ll recef
  [rv.1.x, rv.1.y, rv.1.z, rv.2.x, rv.2.y, rv.2.z,
    llh.lat * rad2deg, llh.lon * rad2deg, llh.alt]

/-- Lines 71–103: the propagation loop, started at index `i` with `n`
iterations remaining.  Each iteration calls `sgp4` at `tsince = i *
stepMinutes`; on failure the whole loop aborts with the failing index
(lines 75–81), otherwise the iteration's nine values are appended.  The
result is kept as one block of nine values per point; the flat C vector is
its concatenation. -/
def loopFrom (core : Sgp4Core) (satrec : Elsetrec) (stepMinutes : ℚ) :
    ℕ → ℕ → Except JniError (List (List ℚ))
  | _, 0 => .ok []
  | i, n + 1 =>
    match core.sgp4 satrec (tsinceAt stepMinutes i) with
    | none => .error (.propagationFailed i)
    | some rv =>
      (loopFrom core satrec stepMinutes (i + 1) n).map
        (fun rest => sampleFields core satrec stepMinutes i rv :: rest)

/-- Lines 47–49: the wrapper truncates each line to 129 characters
(`strncpy(longstr, l, 129)`) before handing it to `twoline2rv`. -/
def parsedOf (core : Sgp4Core) (l1 l2 : String) : Elsetrec :=
  core.twoline2rv (l1.take 129) (l2.take 129)

/-- The whole JNI entry point
`Java_com_orbitYu_orbit_OrbitPropagator_propagateFromTle`.  Null `jstring`
arguments are modelled by `none`; the returned `jdoubleArray` by the flat
list of doubles; each `ThrowNew`/`return nullptr` path by `.error`.
Control flow in source order: null check (lines 36–41), parse and
`satrec.error` check (lines 44–55), step count (lines 57–61), the
propagation loop (lines 71–103), and the output-array allocation check
(lines 110–115). -/
def propagateFromTle (core : Sgp4Core) (line1 line2 : Option String)
    (durationHours stepMinutes : ℚ) : Except JniError (List ℚ) :=
  match line1, line2 with
  | some l1, some l2 =>
    let satrec := parsedOf core l1 l2
    if satrec.error ≠ 0 then
      .error (.invalidInput "Invalid TLE format")
    else
      match loopFrom core satrec stepMinutes 0 (totalPointsOf durationHours stepMinutes) with
      | .error e => .error e
      | .ok blocks =>
        let trajectory := blocks.flatten
        if core.alloc trajectory.length then
          .ok trajectory
        else
          .error .allocationFailed
  | _, _ => .error (.invalidInput "TLE lines cannot be null")

/-- A concrete library instantiation on which every call succeeds; used to
evaluate the wrapper on closed inputs. -/
def trivCore : Sgp4Core where
  twoline2rv := fun _ _ => { error := 0, jdsatepoch := 2451545, elems := 7 }
  sgp4 := fun _ t => some (⟨7000 + t, 0, 0⟩, ⟨0, 15 / 2, 0⟩)
  teme2ecef := fun rv _ => rv
  ijk2ll := fun r => ⟨0, 0, r.x - 6378⟩
  pi := 355 / 113
  alloc := fun _ => true

/-- The body of one loop iteration (lines 71–102) as a standalone function:
the nine values emitted for sample `i`, or `none` when `sgp4` fails there. -/
def pointAt (core : Sgp4Core) (satrec : Elsetrec) (stepMinutes : ℚ) (i : ℕ) :
    Option (List ℚ) :=
  (core.sgp4 satrec (tsinceAt stepMinutes i)).map
    (sampleFields core satrec stepMinutes i)

/-- A library instantiation whose propagator fails exactly at elapsed time 20
minutes; exercises the failure path. -/
def failCore : Sgp4Core :=
  { trivCore with
    sgp4 := fun _ t => if t = 20 then none else some (⟨7000, 0, 0⟩, ⟨0, 15 / 2, 0⟩) }

/-- A library instantiation whose parser always reports a TLE format error
(`satrec.error = 3`); exercises the rejection path. -/
def badParseCore : Sgp4Core :=
  { trivCore with
    twoline2rv := fun _ _ => { error := 3, jdsatepoch := 0, elems := 0 } }

/-- The number of doubles in a successful result, as the caller sees it. -/
def okLength (r : Except JniError (List ℚ)) : Option ℤ :=
  r.toOption.map fun t => (t.length : ℤ)

example : totalPointsOf 90 10 = 541 := by
  norm_num [totalPointsOf, stepsOf]
  decide
example : totalPointsOf 0 1 = 1 := by
  norm_num [totalPointsOf, stepsOf]
example : totalPointsOf (-2) 1 = 1 := by
  norm_num [totalPointsOf, stepsOf]

/-! ### Inversion lemmas for the propagation loop -/

theorem sampleFields_length (core : Sgp4Core) (satrec : Elsetrec)
    (stepMinutes : ℚ) (i : ℕ) (rv : Vec3 × Vec3) :
    (sampleFields core satrec stepMinutes i rv).length = 9 := rfl

/-- A successful loop run has one block per point, and block `j` is the nine
values produced by a successful `sgp4` call at elapsed time `(i+j) *
stepMinutes`. -/
theorem loopFrom_ok (core : Sgp4Core) (satrec : Elsetrec) (S : ℚ) :
    ∀ n i bs, loopFrom core satrec S i n = .ok bs →
      bs.length = n ∧
      ∀ j, j < n → ∃ rv, core.sgp4 satrec (tsinceAt S (i + j)) = some rv ∧
        bs[j]? = some (sampleFields core satrec S (i + j) rv) := by
  intro n
  induction n with
  | zero =>
    intro i bs h
    simp only [loopFrom] at h
    cases h
    exact ⟨rfl, fun j hj => absurd hj (Nat.not_lt_zero j)⟩
  | succ n ih =>
    intro i bs h
    simp only [loopFrom] at h
    cases hs : core.sgp4 satrec (tsinceAt S i) with
    | none => rw [hs] at h; cases h
    | some rv =>
      rw [hs] at h
      cases hr : loopFrom core satrec S (i + 1) n with
      | error e => rw [hr] at h; cases h
      | ok rest =>
        rw [hr] at h
        simp only [Except.map] at h
        cases h
        obtain ⟨hlen, hget⟩ := ih (i + 1) rest hr
        refine ⟨by simp [hlen], ?_⟩
        intro j hj
        cases j with
        | zero =>
          exact ⟨rv, by simpa using hs, by simp⟩
        | succ j' =>
          obtain ⟨rv', h1, h2⟩ := hget j' (Nat.lt_of_succ_lt_succ hj)
          have hidx : i + 1 + j' = i + (j' + 1) := by omega
          rw [hidx] at h1 h2
          exact ⟨rv', h1, by simpa using h2⟩

/-- A failing loop run reports the first index at which `sgp4` fails. -/
theorem loopFrom_error (core : Sgp4Core) (satrec : Elsetrec) (S : ℚ) :
    ∀ n i e, loopFrom core satrec S i n = .error e →
      ∃ k, k < n ∧ e = .propagationFailed (i + k) ∧
        core.sgp4 satrec (tsinceAt S (i + k)) = none ∧
        ∀ j, j < k → (core.sgp4 satrec (tsinceAt S (i + j))).isSome := by
  intro n
  induction n with
  | zero =>
    intro i e h
    simp only [loopFrom] at h
    cases h
  | succ n ih =>
    intro i e h
    simp only [loopFrom] at h
    cases hs : core.sgp4 satrec (tsinceAt S i) with
    | none =>
      rw [hs] at h
      cases h
      exact ⟨0, Nat.succ_pos n, by simp, by simpa using hs,
        fun j hj => absurd hj (Nat.not_lt_zero j)⟩
    | some rv =>
      rw [hs] at h
      cases hr : loopFrom core satrec S (i + 1) n with
      | ok rest => rw [hr] at h; simp only [Except.map] at h; cases h
      | error e' =>
        rw [hr] at h
        simp only [Except.map] at h
        cases h
        obtain ⟨k, hk, he, hnone, hsome⟩ := ih (i + 1) _ hr
        have hidx : i + 1 + k = i + (k + 1) := by omega
        refine ⟨k + 1, by omega, by rw [← hidx]; exact he, by rw [← hidx]; exact hnone, ?_⟩
        intro j hj
        cases j with
        | zero => simp [hs]
        | succ j' =>
          have hidx' : i + (j' + 1) = i + 1 + j' := by omega
          rw [hidx']
          exact hsome j' (Nat.lt_of_succ_lt_succ hj)

/-- If `sgp4` succeeds at every requested index, the loop succeeds. -/
theorem loopFrom_ok_of_some (core : Sgp4Core) (satrec : Elsetrec) (S : ℚ) :
    ∀ n i, (∀ j, j < n → (core.sgp4 satrec (tsinceAt S (i + j))).isSome) →
      ∃ bs, loopFrom core satrec S i n = .ok bs := by
  intro n
  induction n with
  | zero => exact fun i _ => ⟨[], rfl⟩
  | succ n ih =>
    intro i hall
    have h0 : (core.sgp4 satrec (tsinceAt S i)).isSome := by
      simpa using hall 0 (Nat.succ_pos n)
    obtain ⟨rv, hrv⟩ := Option.isSome_iff_exists.mp h0
    obtain ⟨rest, hrest⟩ := ih (i + 1) (fun j hj => by
      have := hall (j + 1) (Nat.succ_lt_succ hj)
      simpa [show i + (j + 1) = i + 1 + j by omega] using this)
    exact ⟨sampleFields core satrec S i rv :: rest,
      by simp [loopFrom, hrv, hrest, Except.map]⟩

/-- Every block of a successful loop run holds exactly nine values. -/
theorem loopFrom_ok_block_length (core : Sgp4Core) (satrec : Elsetrec) (S : ℚ)
    (n i : ℕ) (bs : List (List ℚ)) (h : loopFrom core satrec S i n = .ok bs) :
    ∀ b ∈ bs, b.length = 9 := by
  intro b hb
  obtain ⟨hlen, hget⟩ := loopFrom_ok core satrec S n i bs h
  obtain ⟨j, hj⟩ := List.mem_iff_getElem?.mp hb
  have hjlt : j < n := by
    rw [← hlen]
    exact (List.getElem?_eq_some.mp hj).1
  obtain ⟨rv, _, h2⟩ := hget j hjlt
  rw [hj] at h2
  cases h2
  rfl

/-! ### Flat-array block extraction -/

/-- Concatenating uniform nine-element blocks gives nine values per block. -/
theorem flatten_length_of_blocks :
    ∀ bs : List (List ℚ), (∀ b ∈ bs, b.length = 9) →
      bs.flatten.length = 9 * bs.length := by
  intro bs
  induction bs with
  | nil => simp
  | cons b tl ih =>
    intro h
    have hb : b.length = 9 := h b (List.mem_cons_self b tl)
    have htl := ih fun b' hb' => h b' (List.mem_cons_of_mem b hb')
    simp only [List.flatten_cons, List.length_append, List.length_cons, hb, htl]
    ring

/-- Dropping `9 * i` values from the concatenation of nine-element blocks and
taking nine recovers block `i`. -/
theorem flatten_extract_block :
    ∀ (bs : List (List ℚ)) (i : ℕ) (b : List ℚ), (∀ b' ∈ bs, b'.length = 9) →
      bs[i]? = some b → (bs.flatten.drop (9 * i)).take 9 = b := by
  intro bs
  induction bs with
  | nil => intro i b _ h; simp at h
  | cons hd tl ih =>
    intro i b hlen hget
    have hhd : hd.length = 9 := hlen hd (List.mem_cons_self hd tl)
    cases i with
    | zero =>
      simp only [List.getElem?_cons_zero, Option.some.injEq] at hget
      subst hget
      simp only [Nat.mul_zero, List.drop_zero, List.flatten_cons,
        List.take_append_eq_append_take, hhd]
      simp [List.take_of_length_le (le_of_eq hhd)]
    | succ i' =>
      simp only [List.getElem?_cons_succ] at hget
      have hdrop : ((hd :: tl).flatten).drop (9 * (i' + 1)) =
          (tl.flatten).drop (9 * i') := by
        have h1 : 9 * (i' + 1) = hd.length + 9 * i' := by omega
        rw [List.flatten_cons, h1, ← List.drop_drop, List.drop_left]
      rw [hdrop]
      exact ih i' b (fun b' hb' => hlen b' (List.mem_cons_of_mem hd hb')) hget

/-! ### Inversion of the full entry point -/

/-- Successful-run inversion: the TLE parsed cleanly, the loop over all
`totalPointsOf` indices succeeded, the output is the flat concatenation of
its blocks, and the output array was allocated. -/
theorem propagate_ok_inv (core : Sgp4Core) (l1 l2 : String) (D S : ℚ)
    (traj : List ℚ)
    (h : propagateFromTle core (some l1) (some l2) D S = .ok traj) :
    (parsedOf core l1 l2).error = 0 ∧
    ∃ bs, loopFrom core (parsedOf core l1 l2) S 0 (totalPointsOf D S) = .ok bs ∧
      traj = bs.flatten ∧ core.alloc bs.flatten.length = true := by
  simp only [propagateFromTle] at h
  by_cases herr : (parsedOf core l1 l2).error = 0
  · rw [if_neg (by simpa using herr)] at h
    split at h
    next e heq => cases h
    next bs heq =>
      split at h
      next halloc =>
        cases h
        exact ⟨herr, bs, heq, rfl, halloc⟩
      next => cases h
  · rw [if_pos (by simpa using herr)] at h
    cases h

/-- Converse construction: when `sgp4` first fails at offset `k`, the loop
aborts with exactly that index. -/
theorem loopFrom_error_of_first_none (core : Sgp4Core) (satrec : Elsetrec) (S : ℚ) :
    ∀ n i k, k < n → core.sgp4 satrec (tsinceAt S (i + k)) = none →
      (∀ j, j < k → (core.sgp4 satrec (tsinceAt S (i + j))).isSome) →
      loopFrom core satrec S i n = .error (.propagationFailed (i + k)) := by
  intro n
  induction n with
  | zero => intro i k hk; omega
  | succ n ih =>
    intro i k hk hnone hsome
    cases k with
    | zero =>
      simp only [Nat.add_zero] at hnone
      simp [loopFrom, hnone]
    | succ k' =>
      have h0 : (core.sgp4 satrec (tsinceAt S i)).isSome := by
        simpa using hsome 0 (Nat.succ_pos k')
      obtain ⟨rv, hrv⟩ := Option.isSome_iff_exists.mp h0
      have htl := ih (i + 1) k' (by omega)
        (by rw [show i + 1 + k' = i + (k' + 1) by omega]; exact hnone)
        (fun j hj => by
          rw [show i + 1 + j = i + (j + 1) by omega]
          exact hsome (j + 1) (by omega))
      have hidx : i + 1 + k' = i + (k' + 1) := by omega
      rw [hidx] at htl
      simp [loopFrom, hrv, htl, Except.map]

/-- Failing-run inversion for the full entry point with non-null lines: the
error is the format rejection, the first propagation failure (with its index
and its witnessing failed `sgp4` call), or the allocation failure. -/
theorem propagate_error_inv (core : Sgp4Core) (l1 l2 : String) (D S : ℚ)
    (e : JniError)
    (h : propagateFromTle core (some l1) (some l2) D S = .error e) :
    e = .invalidInput "Invalid TLE format" ∨
    (∃ k, k < totalPointsOf D S ∧ e = .propagationFailed k ∧
      core.sgp4 (parsedOf core l1 l2) (tsinceAt S k) = none ∧
      ∀ j, j < k → (core.sgp4 (parsedOf core l1 l2) (tsinceAt S j)).isSome) ∨
    e = .allocationFailed := by
  simp only [propagateFromTle] at h
  by_cases herr : (parsedOf core l1 l2).error = 0
  · rw [if_neg (by simpa using herr)] at h
    split at h
    next heq =>
      cases h
      obtain ⟨k, hk, he, hnone, hsome⟩ :=
        loopFrom_error core (parsedOf core l1 l2) S _ _ _ heq
      right; left
      refine ⟨k, hk, by simpa using he, by simpa using hnone, ?_⟩
      intro j hj
      simpa using hsome j hj
    next bs heq =>
      split at h
      next => cases h
      next =>
        cases h
        right; right; rfl
  · rw [if_pos (by simpa using herr)] at h
    cases h
    left; rfl

/-- A run whose step count clamps to a single point returns exactly the one
sample computed at elapsed time `0`. -/
theorem propagate_single_point (core : Sgp4Core) (l1 l2 : String) (D S : ℚ)
    (hpoints : totalPointsOf D S = 1)
    (hparse : (parsedOf core l1 l2).error = 0)
    (rv : Vec3 × Vec3)
    (h0 : core.sgp4 (parsedOf core l1 l2) 0 = some rv)
    (halloc : core.alloc 9 = true) :
    propagateFromTle core (some l1) (some l2) D S =
      .ok (sampleFields core (parsedOf core l1 l2) S 0 rv) := by
  have ht : tsinceAt S 0 = 0 := by simp [tsinceAt]
  have hloop : loopFrom core (parsedOf core l1 l2) S 0 1 =
      .ok [sampleFields core (parsedOf core l1 l2) S 0 rv] := by
    simp [loopFrom, ht, h0, Except.map]
  have hflat : ([sampleFields core (parsedOf core l1 l2) S 0 rv] :
      List (List ℚ)).flatten = sampleFields core (parsedOf core l1 l2) S 0 rv := by
    simp
  simp only [propagateFromTle, hpoints]
  rw [if_neg (by simp [hparse]), hloop]
  simp only [hflat, sampleFields_length, halloc, if_pos]

/-- The all-succeeding library gives a successful run on any inputs. -/
theorem trivCore_ok (l1 l2 : String) (D S : ℚ) :
    ∃ bs, propagateFromTle trivCore (some l1) (some l2) D S = .ok bs.flatten ∧
      loopFrom trivCore (parsedOf trivCore l1 l2) S 0 (totalPointsOf D S) = .ok bs := by
  obtain ⟨bs, hbs⟩ := loopFrom_ok_of_some trivCore (parsedOf trivCore l1 l2) S
    (totalPointsOf D S) 0 (fun j hj => rfl)
  refine ⟨bs, ?_, hbs⟩
  simp only [propagateFromTle]
  rw [if_neg (by simp [parsedOf, trivCore]), hbs]
  rfl

/-- Concrete evaluation: the all-succeeding library at duration 0 hours, step
1 minute produces one sample of nine values. -/
theorem trivCore_eval_zero_one :
    propagateFromTle trivCore (some "1") (some "2") 0 1 =
      .ok [7000, 0, 0, 0, 15 / 2, 0, 0, 0, 622] := by
  have hpoints : totalPointsOf 0 1 = 1 := by
    norm_num [totalPointsOf, stepsOf]
  have h0 : trivCore.sgp4 (parsedOf trivCore "1" "2") 0 =
      some (⟨7000, 0, 0⟩, ⟨0, 15 / 2, 0⟩) := by
    simp [trivCore, parsedOf]
  have := propagate_single_point trivCore "1" "2" 0 1 hpoints rfl _ h0 rfl
  rw [this]
  norm_num [sampleFields, tsinceAt, trivCore, parsedOf]

/-- C1: for a TLE pair the parser accepts, duration `D ≥ 0` hours and step
`S > 0` minutes, a successful run (no propagation or allocation failure)
returns exactly `⌊(D*60)/S⌋ + 1` samples of nine doubles each: the flat
output holds `9 * (⌊(D*60)/S⌋ + 1)` values. -/
theorem propagate_sample_count (core : Sgp4Core) (l1 l2 : String) (D S : ℚ)
    (hD : 0 ≤ D) (hS : 0 < S) (traj : List ℚ)
    (h : propagateFromTle core (some l1) (some l2) D S = .ok traj) :
    (traj.length : ℤ) = 9 * (⌊D * 60 / S⌋ + 1) := by
  obtain ⟨-, bs, hloop, htraj, -⟩ := propagate_ok_inv core l1 l2 D S traj h
  have hblock := loopFrom_ok_block_length core (parsedOf core l1 l2) S _ _ _ hloop
  have hlen := (loopFrom_ok core (parsedOf core l1 l2) S _ _ _ hloop).1
  have hfl := flatten_length_of_blocks bs hblock
  have hfloor : 0 ≤ ⌊D * 60 / S⌋ :=
    Int.floor_nonneg.mpr (div_nonneg (mul_nonneg hD (by norm_num)) hS.le)
  subst htraj
  rw [hfl, hlen]
  simp only [totalPointsOf, stepsOf]
  rw [if_neg (by omega)]
  push_cast [Int.toNat_of_nonneg hfloor]
  ring

/-- C1 witness: duration 90 hours at step 10 minutes yields 541 samples
(4869 doubles), and duration 0 hours at step 1 minute yields 1 sample. -/
theorem propagate_sample_count_witness :
    okLength (propagateFromTle trivCore (some "1") (some "2") 90 10) =
      some (9 * 541) ∧
    okLength (propagateFromTle trivCore (some "1") (some "2") 0 1) =
      some (9 * 1) := by
  constructor
  · obtain ⟨bs, hok, -⟩ := trivCore_ok "1" "2" 90 10
    have hlen := propagate_sample_count trivCore "1" "2" 90 10
      (by norm_num) (by norm_num) _ hok
    rw [hok]
    simp only [okLength, Except.toOption, Option.map]
    rw [hlen]
    norm_num
  · obtain ⟨bs, hok, -⟩ := trivCore_ok "1" "2" 0 1
    have hlen := propagate_sample_count trivCore "1" "2" 0 1
      (by norm_num) (by norm_num) _ hok
    rw [hok]
    simp only [okLength, Except.toOption, Option.map]
    rw [hlen]
    norm_num

/-- C2 counterexample: with `stepMinutes = -1 ≤ 0` (and an accepting parser
and succeeding propagator) the operation does not fail at all: it returns a
sample sequence.  The wrapper never validates `stepMinutes`. -/
theorem negative_step_not_rejected :
    (propagateFromTle trivCore (some "1") (some "2") 1 (-1)).isOk = true := by
  obtain ⟨bs, hok, -⟩ := trivCore_ok "1" "2" 1 (-1)
  rw [hok]
  rfl

/-- C2 amended: the wrapper performs no `stepMinutes` validation.  For
`stepMinutes < 0` with `durationHours ≥ 0` (so the floored step count is
nonpositive), the count clamps to zero and the call succeeds with the single
sample computed at elapsed time `0 * stepMinutes = 0`, rather than failing
with an invalid-input error. -/
theorem negative_step_clamped_single_sample (core : Sgp4Core)
    (l1 l2 : String) (D S : ℚ) (hS : S < 0) (hD : 0 ≤ D)
    (hparse : (parsedOf core l1 l2).error = 0)
    (rv : Vec3 × Vec3)
    (h0 : core.sgp4 (parsedOf core l1 l2) 0 = some rv)
    (halloc : core.alloc 9 = true) :
    propagateFromTle core (some l1) (some l2) D S =
      .ok (sampleFields core (parsedOf core l1 l2) S 0 rv) := by
  have hfloor : ⌊D * 60 / S⌋ ≤ 0 :=
    Int.floor_nonpos (div_nonpos_of_nonneg_of_nonpos
      (mul_nonneg hD (by norm_num)) hS.le)
  have hpoints : totalPointsOf D S = 1 := by
    simp only [totalPointsOf, stepsOf]
    split <;> omega
  exact propagate_single_point core l1 l2 D S hpoints hparse rv h0 halloc

/-- C2 amended witness: duration 1 hour, step −1 minute returns exactly the
`t = 0` sample. -/
theorem negative_step_clamped_single_sample_witness :
    propagateFromTle trivCore (some "1") (some "2") 1 (-1) =
      .ok (sampleFields trivCore (parsedOf trivCore "1" "2") (-1) 0
        (⟨7000, 0, 0⟩, ⟨0, 15 / 2, 0⟩)) :=
  negative_step_clamped_single_sample trivCore "1" "2" 1 (-1)
    (by norm_num) (by norm_num) rfl _ (by simp [trivCore, parsedOf]) rfl

/-- C3: if the parser accepted the TLE and `sgp4` first fails at sample index
`k` (it succeeds at every earlier index), the whole call fails with the error
identifying `k`; the result is an error, so no sample sequence — in
particular no partial one — is returned. -/
theorem propagation_failure_reports_first_index (core : Sgp4Core)
    (l1 l2 : String) (D S : ℚ) (k : ℕ)
    (hparse : (parsedOf core l1 l2).error = 0)
    (hk : k < totalPointsOf D S)
    (hfail : core.sgp4 (parsedOf core l1 l2) (tsinceAt S k) = none)
    (hbefore : ∀ j, j < k →
      (core.sgp4 (parsedOf core l1 l2) (tsinceAt S j)).isSome) :
    propagateFromTle core (some l1) (some l2) D S =
      .error (.propagationFailed k) := by
  have hloop := loopFrom_error_of_first_none core (parsedOf core l1 l2) S
    (totalPointsOf D S) 0 k hk (by simpa using hfail)
    (fun j hj => by simpa using hbefore j hj)
  simp only [Nat.zero_add] at hloop
  simp only [propagateFromTle]
  rw [if_neg (by simp [hparse]), hloop]

/-- C3 witness: a propagator that fails at elapsed time 20 minutes makes the
run over 1 hour at 10-minute steps fail reporting sample index 2. -/
theorem propagation_failure_reports_first_index_witness :
    propagateFromTle failCore (some "1") (some "2") 1 10 =
      .error (.propagationFailed 2) := by
  refine propagation_failure_reports_first_index failCore "1" "2" 1 10 2
    rfl ?_ ?_ ?_
  · norm_num [totalPointsOf, stepsOf]
    decide
  · norm_num [failCore, tsinceAt]
  · intro j hj
    interval_cases j <;> norm_num [failCore, tsinceAt]

/-- C4: on a successful call with step `S > 0`, sample `i` is computed from a
`sgp4` call at elapsed time `tsinceAt S i = i * S` minutes since the TLE
epoch for every index, and these elapsed times strictly increase. -/
theorem sample_elapsed_times (core : Sgp4Core) (l1 l2 : String) (D S : ℚ)
    (hS : 0 < S) (traj : List ℚ)
    (h : propagateFromTle core (some l1) (some l2) D S = .ok traj) :
    (∀ i, i < totalPointsOf D S → ∃ rv,
        core.sgp4 (parsedOf core l1 l2) (tsinceAt S i) = some rv ∧
        (traj.drop (9 * i)).take 9 =
          sampleFields core (parsedOf core l1 l2) S i rv) ∧
    (∀ i j : ℕ, i < j → tsinceAt S i < tsinceAt S j) := by
  obtain ⟨-, bs, hloop, htraj, -⟩ := propagate_ok_inv core l1 l2 D S traj h
  obtain ⟨hlen, hget⟩ := loopFrom_ok core (parsedOf core l1 l2) S _ _ _ hloop
  have hblock := loopFrom_ok_block_length core (parsedOf core l1 l2) S _ _ _ hloop
  subst htraj
  refine ⟨?_, ?_⟩
  · intro i hi
    obtain ⟨rv, h1, h2⟩ := hget i hi
    simp only [Nat.zero_add] at h1 h2
    exact ⟨rv, h1, flatten_extract_block bs i _ hblock h2⟩
  · intro i j hij
    have hij' : (i : ℚ) < j := by exact_mod_cast hij
    simp only [tsinceAt]
    exact mul_lt_mul_of_pos_right hij' hS

/-- C4 witness: instantiation at duration 0 hours, step 1 minute on the
all-succeeding library, whose single-sample output is computed at elapsed
time `0 * 1`. -/
theorem sample_elapsed_times_witness :
    (∀ i, i < totalPointsOf 0 1 → ∃ rv,
        trivCore.sgp4 (parsedOf trivCore "1" "2") (tsinceAt 1 i) = some rv ∧
        (([7000, 0, 0, 0, 15 / 2, 0, 0, 0, 622] : List ℚ).drop (9 * i)).take 9 =
          sampleFields trivCore (parsedOf trivCore "1" "2") 1 i rv) ∧
    (∀ i j : ℕ, i < j → tsinceAt 1 i < tsinceAt 1 j) :=
  sample_elapsed_times trivCore "1" "2" 0 1 (by norm_num) _ trivCore_eval_zero_one

/-- C5: when the parser reports an error (`satrec.error ≠ 0`), the call fails
with the invalid-input error, and the outcome is the same whatever the
propagator does — no propagation step influences it and no sample output
exists. -/
theorem invalid_tle_rejected_before_propagation (core : Sgp4Core)
    (l1 l2 : String) (D S : ℚ)
    (hparse : (parsedOf core l1 l2).error ≠ 0) :
    ∀ f, propagateFromTle { core with sgp4 := f } (some l1) (some l2) D S =
      .error (.invalidInput "Invalid TLE format") := by
  intro f
  have hp : parsedOf { core with sgp4 := f } l1 l2 = parsedOf core l1 l2 := rfl
  simp only [propagateFromTle, hp]
  rw [if_pos (by simpa using hparse)]

/-- C5 witness: a parser that reports error code 3 makes the call fail with
the format error even under a propagator that always fails. -/
theorem invalid_tle_rejected_before_propagation_witness :
    propagateFromTle { badParseCore with sgp4 := fun _ _ => none }
      (some "1") (some "2") 5 1 =
      .error (.invalidInput "Invalid TLE format") :=
  invalid_tle_rejected_before_propagation badParseCore "1" "2" 5 1
    (by norm_num [parsedOf, badParseCore]) (fun _ _ => none)

/-- C6: on a successful call the flat output has `9 * sampleCount` entries,
and the nine values of sample `i` appear in the order: inertial position
`x, y, z` (km), inertial velocity `vx, vy, vz` (km/s), geodetic latitude and
longitude converted from radians to degrees by `180 / pi`, then altitude in
km. -/
theorem output_block_layout (core : Sgp4Core) (l1 l2 : String) (D S : ℚ)
    (traj : List ℚ)
    (h : propagateFromTle core (some l1) (some l2) D S = .ok traj) :
    traj.length = 9 * totalPointsOf D S ∧
    ∀ i, i < totalPointsOf D S → ∃ rv,
      core.sgp4 (parsedOf core l1 l2) (tsinceAt S i) = some rv ∧
      (traj.drop (9 * i)).take 9 =
        [rv.1.x, rv.1.y, rv.1.z, rv.2.x, rv.2.y, rv.2.z,
         (core.ijk2ll (core.teme2ecef rv ((parsedOf core l1 l2).jdsatepoch +
            tsinceAt S i / 1440)).1).lat * (180 / core.pi),
         (core.ijk2ll (core.teme2ecef rv ((parsedOf core l1 l2).jdsatepoch +
            tsinceAt S i / 1440)).1).lon * (180 / core.pi),
         (core.ijk2ll (core.teme2ecef rv ((parsedOf core l1 l2).jdsatepoch +
            tsinceAt S i / 1440)).1).alt] := by
  obtain ⟨-, bs, hloop, htraj, -⟩ := propagate_ok_inv core l1 l2 D S traj h
  obtain ⟨hlen, hget⟩ := loopFrom_ok core (parsedOf core l1 l2) S _ _ _ hloop
  have hblock := loopFrom_ok_block_length core (parsedOf core l1 l2) S _ _ _ hloop
  subst htraj
  refine ⟨by rw [flatten_length_of_blocks bs hblock, hlen], ?_⟩
  intro i hi
  obtain ⟨rv, h1, h2⟩ := hget i hi
  simp only [Nat.zero_add] at h1 h2
  refine ⟨rv, h1, ?_⟩
  rw [flatten_extract_block bs i _ hblock h2]
  rfl

/-- C6 witness: instantiation at duration 0 hours, step 1 minute on the
all-succeeding library. -/
theorem output_block_layout_witness :
    ([7000, 0, 0, 0, 15 / 2, 0, 0, 0, 622] : List ℚ).length =
      9 * totalPointsOf 0 1 ∧
    ∀ i, i < totalPointsOf 0 1 → ∃ rv,
      trivCore.sgp4 (parsedOf trivCore "1" "2") (tsinceAt 1 i) = some rv ∧
      (([7000, 0, 0, 0, 15 / 2, 0, 0, 0, 622] : List ℚ).drop (9 * i)).take 9 =
        [rv.1.x, rv.1.y, rv.1.z, rv.2.x, rv.2.y, rv.2.z,
         (trivCore.ijk2ll (trivCore.teme2ecef rv
            ((parsedOf trivCore "1" "2").jdsatepoch +
              tsinceAt 1 i / 1440)).1).lat * (180 / trivCore.pi),
         (trivCore.ijk2ll (trivCore.teme2ecef rv
            ((parsedOf trivCore "1" "2").jdsatepoch +
              tsinceAt 1 i / 1440)).1).lon * (180 / trivCore.pi),
         (trivCore.ijk2ll (trivCore.teme2ecef rv
            ((parsedOf trivCore "1" "2").jdsatepoch +
              tsinceAt 1 i / 1440)).1).alt] :=
  output_block_layout trivCore "1" "2" 0 1 _ trivCore_eval_zero_one

/-- C7: every failure of the operation is one of exactly three mutually
distinguishable kinds: invalid input (null lines or rejected TLE format),
propagation failure carrying the failing sample index (witnessed by the
failed `sgp4` call there), or allocation failure; and the three kinds are
pairwise distinct. -/
theorem error_surface_three_kinds (core : Sgp4Core)
    (line1 line2 : Option String) (D S : ℚ) (e : JniError)
    (h : propagateFromTle core line1 line2 D S = .error e) :
    ((∃ m, e = .invalidInput m) ∨
     (∃ l1 l2 k, line1 = some l1 ∧ line2 = some l2 ∧
        e = .propagationFailed k ∧
        core.sgp4 (parsedOf core l1 l2) (tsinceAt S k) = none) ∨
     e = .allocationFailed) ∧
    (∀ m k, JniError.invalidInput m ≠ .propagationFailed k) ∧
    (∀ m, JniError.invalidInput m ≠ .allocationFailed) ∧
    (∀ k, JniError.propagationFailed k ≠ .allocationFailed) := by
  refine ⟨?_, ?_, ?_, ?_⟩
  · cases line1 with
    | none =>
      simp only [propagateFromTle] at h
      cases h
      exact Or.inl ⟨_, rfl⟩
    | some l1 =>
      cases line2 with
      | none =>
        simp only [propagateFromTle] at h
        cases h
        exact Or.inl ⟨_, rfl⟩
      | some l2 =>
        rcases propagate_error_inv core l1 l2 D S e h with
          h1 | ⟨k, -, he, hnone, -⟩ | h3
        · exact Or.inl ⟨_, h1⟩
        · exact Or.inr (Or.inl ⟨l1, l2, k, rfl, rfl, he, hnone⟩)
        · exact Or.inr (Or.inr h3)
  · intro m k hc
    cases hc
  · intro m hc
    cases hc
  · intro k hc
    cases hc

/-- C7 witness: instantiation at the null-input failure. -/
theorem error_surface_three_kinds_witness :
    ((∃ m, JniError.invalidInput "TLE lines cannot be null" = .invalidInput m) ∨
     (∃ l1 l2 k, (none : Option String) = some l1 ∧
        (none : Option String) = some l2 ∧
        JniError.invalidInput "TLE lines cannot be null" = .propagationFailed k ∧
        trivCore.sgp4 (parsedOf trivCore l1 l2) (tsinceAt 1 k) = none) ∨
     JniError.invalidInput "TLE lines cannot be null" = .allocationFailed) ∧
    (∀ m k, JniError.invalidInput m ≠ .propagationFailed k) ∧
    (∀ m, JniError.invalidInput m ≠ .allocationFailed) ∧
    (∀ k, JniError.propagationFailed k ≠ .allocationFailed) :=
  error_surface_three_kinds trivCore none none 0 1 _ rfl

/-- C8: the per-sample computation is a pure function of the fixed parsed
record and the sample's elapsed time: whenever two sample indices (of the
same run or of different runs over the same record) denote the same elapsed
time, the `sgp4` inertial state and the emitted nine output values coincide;
no state is carried between sample calls. -/
theorem per_sample_computation_pure (core : Sgp4Core) (satrec : Elsetrec)
    (S S' : ℚ) (i j : ℕ) (h : tsinceAt S i = tsinceAt S' j) :
    core.sgp4 satrec (tsinceAt S i) = core.sgp4 satrec (tsinceAt S' j) ∧
    pointAt core satrec S i = pointAt core satrec S' j := by
  refine ⟨by rw [h], ?_⟩
  have hsf : sampleFields core satrec S i = sampleFields core satrec S' j := by
    funext rv
    simp only [sampleFields, h]
  simp only [pointAt, hsf, h]

/-- C8 witness: sample 3 of a 2-minute-step run and sample 2 of a
3-minute-step run over the same record (both at elapsed time 6 minutes)
produce identical states and output values. -/
theorem per_sample_computation_pure_witness :
    trivCore.sgp4 ⟨0, 2451545, 7⟩ (tsinceAt 2 3) =
      trivCore.sgp4 ⟨0, 2451545, 7⟩ (tsinceAt 3 2) ∧
    pointAt trivCore ⟨0, 2451545, 7⟩ 2 3 = pointAt trivCore ⟨0, 2451545, 7⟩ 3 2 :=
  per_sample_computation_pure trivCore ⟨0, 2451545, 7⟩ 2 3 3 2
    (by norm_num [tsinceAt])

/-- C9: for a valid TLE and negative `durationHours` with `stepMinutes > 0`,
the floored step count is negative and clamps to zero, and the call still
succeeds, returning exactly the one sample computed at elapsed time 0. -/
theorem negative_duration_single_sample (core : Sgp4Core) (l1 l2 : String)
    (D S : ℚ) (hD : D < 0) (hS : 0 < S)
    (hparse : (parsedOf core l1 l2).error = 0)
    (rv : Vec3 × Vec3)
    (h0 : core.sgp4 (parsedOf core l1 l2) 0 = some rv)
    (halloc : core.alloc 9 = true) :
    stepsOf D S = 0 ∧ tsinceAt S 0 = 0 ∧
    propagateFromTle core (some l1) (some l2) D S =
      .ok (sampleFields core (parsedOf core l1 l2) S 0 rv) := by
  have hneg : D * 60 / S < 0 :=
    div_neg_of_neg_of_pos (by nlinarith) hS
  have hfloor : ⌊D * 60 / S⌋ < 0 := Int.floor_lt.mpr (by exact_mod_cast hneg)
  have hsteps : stepsOf D S = 0 := by
    simp only [stepsOf]
    rw [if_pos hfloor]
  have hpoints : totalPointsOf D S = 1 := by
    simp only [totalPointsOf, hsteps]
    rfl
  exact ⟨hsteps, by simp [tsinceAt],
    propagate_single_point core l1 l2 D S hpoints hparse rv h0 halloc⟩

/-- C9 witness: duration −2 hours at step 1 minute returns the single
`t = 0` sample. -/
theorem negative_duration_single_sample_witness :
    stepsOf (-2) 1 = 0 ∧ tsinceAt 1 0 = 0 ∧
    propagateFromTle trivCore (some "1") (some "2") (-2) 1 =
      .ok (sampleFields trivCore (parsedOf trivCore "1" "2") 1 0
        (⟨7000, 0, 0⟩, ⟨0, 15 / 2, 0⟩)) :=
  negative_duration_single_sample trivCore "1" "2" (-2) 1 (by norm_num)
    (by norm_num) rfl _ (by simp [trivCore, parsedOf]) rfl

/-- C10: on a successful call, the geodetic fields of sample `i` (the last
three of its nine values) are computed from the Earth-fixed state obtained by
converting the inertial state at the Julian date
`jdsatepoch + (i * stepMinutes) / 1440` — the epoch advanced by exactly the
sample's elapsed time converted from minutes to days. -/
theorem frame_conversion_julian_date (core : Sgp4Core) (l1 l2 : String)
    (D S : ℚ) (traj : List ℚ)
    (h : propagateFromTle core (some l1) (some l2) D S = .ok traj)
    (i : ℕ) (hi : i < totalPointsOf D S) :
    ∃ rv, core.sgp4 (parsedOf core l1 l2) ((i : ℚ) * S) = some rv ∧
      ((traj.drop (9 * i)).take 9).drop 6 =
        [(core.ijk2ll (core.teme2ecef rv ((parsedOf core l1 l2).jdsatepoch +
            (i : ℚ) * S / 1440)).1).lat * (180 / core.pi),
         (core.ijk2ll (core.teme2ecef rv ((parsedOf core l1 l2).jdsatepoch +
            (i : ℚ) * S / 1440)).1).lon * (180 / core.pi),
         (core.ijk2ll (core.teme2ecef rv ((parsedOf core l1 l2).jdsatepoch +
            (i : ℚ) * S / 1440)).1).alt] := by
  obtain ⟨-, bs, hloop, htraj, -⟩ := propagate_ok_inv core l1 l2 D S traj h
  obtain ⟨hlen, hget⟩ := loopFrom_ok core (parsedOf core l1 l2) S _ _ _ hloop
  have hblock := loopFrom_ok_block_length core (parsedOf core l1 l2) S _ _ _ hloop
  subst htraj
  obtain ⟨rv, h1, h2⟩ := hget i hi
  simp only [Nat.zero_add] at h1 h2
  refine ⟨rv, h1, ?_⟩
  rw [flatten_extract_block bs i _ hblock h2]
  rfl

/-- C10 witness: instantiation at duration 0 hours, step 1 minute, sample 0
on the all-succeeding library. -/
theorem frame_conversion_julian_date_witness :
    ∃ rv, trivCore.sgp4 (parsedOf trivCore "1" "2") (((0 : ℕ) : ℚ) * 1) = some rv ∧
      ((([7000, 0, 0, 0, 15 / 2, 0, 0, 0, 622] : List ℚ).drop (9 * 0)).take 9).drop 6 =
        [(trivCore.ijk2ll (trivCore.teme2ecef rv
            ((parsedOf trivCore "1" "2").jdsatepoch +
              ((0 : ℕ) : ℚ) * 1 / 1440)).1).lat * (180 / trivCore.pi),
         (trivCore.ijk2ll (trivCore.teme2ecef rv
            ((parsedOf trivCore "1" "2").jdsatepoch +
              ((0 : ℕ) : ℚ) * 1 / 1440)).1).lon * (180 / trivCore.pi),
         (trivCore.ijk2ll (trivCore.teme2ecef rv
            ((parsedOf trivCore "1" "2").jdsatepoch +
              ((0 : ℕ) : ℚ) * 1 / 1440)).1).alt] :=
  frame_conversion_julian_date trivCore "1" "2" 0 1 _ trivCore_eval_zero_one 0
    (Nat.succ_pos _)
